import Mathlib

set_option maxHeartbeats 1000000

/-!
Verification development for the swanlab experiment recorder
(swanlab/database/experiment.py).

Python strings are modelled as lists of characters (`Str`), numeric values
as rationals, and the external chart collaborator (`ChartTable`, which lives
outside this module) as an abstract structure of functions.
-/

abbrev Str : Type := List Char

/-- Helper for Python str.split("-"): returns the first segment of the list
and the remaining segments. -/
def splitAux : Str → Str × List Str
  | [] => ([], [])
  | c :: cs =>
    let p := splitAux cs
    if c = '-' then ([], p.1 :: p.2) else (c :: p.1, p.2)

/-- Python name.split("-"). -/
def splitOnDash (s : Str) : List Str := (splitAux s).1 :: (splitAux s).2

/-- Python "-".join(segs). -/
def joinDash : List Str → Str
  | [] => []
  | [s] => s
  | s :: t :: rest => s ++ '-' :: joinDash (t :: rest)

/-- Python s.isdigit() on ASCII strings: nonempty and all decimal digits. -/
def pyIsdigit (s : Str) : Bool := !s.isEmpty && s.all Char.isDigit

/-- Numeric value of a decimal digit character. -/
def charVal (c : Char) : Nat := c.toNat - 48

/-- Python int(s) on a string of decimal digits. -/
def pyInt (s : Str) : Nat := s.foldl (fun a c => 10 * a + charVal c) 0

/-- The decimal digit character for a value below ten. -/
def digitToChar : Nat → Char
  | 0 => '0'
  | 1 => '1'
  | 2 => '2'
  | 3 => '3'
  | 4 => '4'
  | 5 => '5'
  | 6 => '6'
  | 7 => '7'
  | 8 => '8'
  | 9 => '9'
  | _ => '?'

/-- Fuelled big-endian decimal digit expansion of a natural number. -/
def natDigitsAux : Nat → Nat → Str
  | 0, _ => []
  | fuel + 1, n => if n = 0 then [] else natDigitsAux fuel (n / 10) ++ [digitToChar (n % 10)]

/-- Python str(n) for a natural number n. -/
def pyStrOfNat (n : Nat) : Str := if n = 0 then ['0'] else natDigitsAux n n

/-- One recursive step of make_experiment_name_unique: split on "-",
increment a numeric final segment, otherwise append the literal segment "1",
and rejoin. -/
def nextName (name : Str) : Str :=
  let name_arr := splitOnDash name
  if pyIsdigit (name_arr.getLastD []) then
    joinDash (name_arr.dropLast ++ [pyStrOfNat (pyInt (name_arr.getLastD []) + 1)])
  else
    joinDash (name_arr ++ [['1']])

/-- Fuelled unfolding of the recursion in make_experiment_name_unique:
while the candidate collides with the existing-name list, move to the next
candidate. -/
def findEscape (S : List Str) : Nat → Str → Str
  | 0, name => name
  | fuel + 1, name => if name ∈ S then findEscape S fuel (nextName name) else name

/-- make_experiment_name_unique from the source: recurse (here with
sufficient fuel, proved adequate below) until the name avoids the list. -/
def make_experiment_name_unique (name : Str) (exists_name : List Str) : Str :=
  findEscape exists_name (exists_name.length + 1) name

/-- A name whose final dash-segment is the decimal numeral of n. -/
def canonName (b : List Str) (n : Nat) : Str := joinDash (b ++ [pyStrOfNat n])

/-- Running aggregate state kept for one tag in ExperimentTable.tags:
the dict literal at line 119 of experiment.py. -/
structure TagData where
  num : Nat
  max : Option ℚ
  min : Option ℚ
  indexs : List Int
deriving DecidableEq

/-- The three-field summary dict built at line 148 of experiment.py and
handed to the persistence layer. -/
structure SummaryOut where
  num : Nat
  max : Option ℚ
  min : Option ℚ
deriving DecidableEq

/-- One save_tag handoff to the persistence layer. -/
structure SaveRecord where
  tag : Str
  data : ℚ
  index : Int
  tag_num : Nat
  summary : SummaryOut
deriving DecidableEq

/-- A swanlog warning emitted by add: either the chart-error warning of
line 126 or the duplicate-step warning of line 135. -/
inductive Warning where
  | chartError (tag : Str)
  | duplicateStep (index : Int) (tag : Str)
deriving DecidableEq

/-- A Python scalar submitted to add: an int, a float (modelled as ℚ),
or some other object characterized by the result of calling float() on
it (none when float() raises). -/
inductive Scalar where
  | int (i : Int)
  | float (q : ℚ)
  | other (conv : Option ℚ)
deriving DecidableEq

/-- A BaseType structured payload: mutable tag/step attributes plus the
value that get_data() extracts. -/
structure BaseObj where
  tag : Option Str
  step : Option Int
  payload : Scalar
deriving DecidableEq

/-- The data argument of add: a scalar or a BaseType object. -/
inductive PyData where
  | scalar (s : Scalar)
  | base (b : BaseObj)
deriving DecidableEq

/-- BaseType.get_data(). -/
def BaseObj.get_data (b : BaseObj) : Scalar := b.payload

/-- check_data_type from experiment.py: ints, floats and BaseType objects
pass through unchanged; anything else is converted with float(), and a
conversion error yields None (modelled as none). -/
def check_data_type : PyData → Option PyData
  | .scalar (.other c) =>
    match c with
    | some q => some (.scalar (.float q))
    | none => none
  | d => some d

/-- Modelled from the spec: the ChartTable chart sink (swanlab/database/chart.py
is not part of the sources under verification). Per the spec it exposes
registration of a tag with its first datum, a per-tag permanent error flag,
and try_convert_data, the final value coercion, which raises a validation
failure (modelled as none) when the value cannot be coerced. -/
structure Chart (σ : Type) where
  addTag : σ → Str → PyData → σ
  isChartError : σ → Str → Bool
  tryConvert : σ → Scalar → Str → Option ℚ

/-- Outcome of one add call: the sample was accepted with converted value q,
dropped with the chart-error warning, dropped as a duplicate step, aborted
by a failed value conversion, or aborted by a missing-tag lookup (the
Python KeyError path, provably unreachable). -/
inductive AddOutcome where
  | ok (q : ℚ)
  | chartErrored
  | duplicate
  | convertFailed
  | keyError
deriving DecidableEq

/-- The mutable state of an ExperimentTable relevant to add: the tags
mapping, the chart collaborator state, and the observable history of
save_tag handoffs and warnings. -/
structure ExpState (σ : Type) where
  tags : Str → Option TagData
  chart : σ
  saved : List SaveRecord
  warnings : List Warning

/-- The fresh per-tag dict of line 119. -/
def initTagData : TagData := ⟨0, none, none, []⟩

/-- Lines 121-123 of add: on a first-seen tag, a BaseType datum is stamped
with the tag and a default step (1 when none was given). -/
def stampFirst (tag : Str) (step : Option Int) : PyData → PyData
  | .base b => PyData.base { b with tag := some tag, step := some (step.getD 1) }
  | d => d

/-- Lines 117-124 of add: on a first-seen tag, create its aggregate entry,
stamp a BaseType datum with the tag and a default step, and register the
tag with the chart sink. Returns the new state and the (possibly stamped)
datum. -/
def addFirstSeen (σ : Type) (C : Chart σ) (st : ExpState σ) (tag : Str)
    (data : PyData) (step : Option Int) : ExpState σ × PyData :=
  match st.tags tag with
  | some _ => (st, data)
  | none =>
    let data1 := stampFirst tag step data
    ({ st with
        tags := fun t => if t = tag then some initTagData else st.tags t,
        chart := C.addTag st.chart tag data1 }, data1)

/-- update_tag_num from experiment.py: increment the tag's num and return
the new value. The missing-tag branch mirrors a Python KeyError and is
unreachable from add. -/
def update_tag_num (σ : Type) (st : ExpState σ) (tag : Str) : ExpState σ × Nat :=
  match st.tags tag with
  | none => (st, 0)
  | some s =>
    ({ st with tags := fun t => if t = tag then some { s with num := s.num + 1 } else st.tags t },
      s.num + 1)

/-- The value on which try_convert_data is invoked: the get_data() payload
of a BaseType datum, or the scalar itself. -/
def rawValue : PyData → Scalar
  | .base b => b.get_data
  | .scalar s => s

/-- Line 132 of add: the step index is the explicit step when given,
otherwise the post-increment sample count. -/
def stepIndex (step : Option Int) (tag_num : Nat) : Int :=
  match step with
  | none => (tag_num : Int)
  | some s => s

/-- Lines 138-140 of add: a BaseType datum whose tag is still unset is
stamped with the tag and the computed index. -/
def stampData (tag : Str) (index : Int) : PyData → PyData
  | .base b =>
    if b.tag = none then PyData.base { b with tag := some tag, step := some index }
    else PyData.base b
  | d => d

/-- Line 144 of add: the new max (the first value initializes it). -/
def pyMax (old : Option ℚ) (q : ℚ) : ℚ :=
  match old with
  | none => q
  | some m => max m q

/-- Line 145 of add: the new min (the first value initializes it). -/
def pyMin (old : Option ℚ) (q : ℚ) : ℚ :=
  match old with
  | none => q
  | some m => min m q

/-- The hexadecimal digit characters used by percent-encoding (uppercase,
as in urllib.parse.quote). -/
def hexDigitChar : Nat → Char
  | 0 => '0'
  | 1 => '1'
  | 2 => '2'
  | 3 => '3'
  | 4 => '4'
  | 5 => '5'
  | 6 => '6'
  | 7 => '7'
  | 8 => '8'
  | 9 => '9'
  | 10 => 'A'
  | 11 => 'B'
  | 12 => 'C'
  | 13 => 'D'
  | 14 => 'E'
  | 15 => 'F'
  | _ => '?'

/-- UTF-8 encoding of one character, as a list of byte values. -/
def utf8Bytes (c : Char) : List Nat :=
  let n := c.toNat
  if n < 128 then [n]
  else if n < 2048 then [192 + n / 64, 128 + n % 64]
  else if n < 65536 then [224 + n / 4096, 128 + (n / 64) % 64, 128 + n % 64]
  else [240 + n / 262144, 128 + (n / 4096) % 64, 128 + (n / 64) % 64, 128 + n % 64]

/-- The characters urllib.parse.quote never encodes (the always-safe set;
the call in experiment.py passes safe = ""). -/
def isUrlSafe (c : Char) : Bool :=
  c.isAlphanum || c = '_' || c = '.' || c = '-' || c = '~'

/-- Percent-encoding of one character for urllib.parse.quote(s, safe=""). -/
def quoteChar (c : Char) : Str :=
  if isUrlSafe c then [c]
  else ((utf8Bytes c).map (fun b => ['%', hexDigitChar (b / 16), hexDigitChar (b % 16)])).flatten

/-- urllib.parse.quote(tag, safe="") as used at line 150 of experiment.py. -/
def quote (s : Str) : Str := (s.map quoteChar).flatten

/-- Lines 127-151 of add, for a tag already present in the tags mapping
with entry summary0: update num, compute the step index, drop duplicate
steps with a warning, stamp an unstamped BaseType datum, extract and
convert the value, update max/min and the recorded indexes, and hand the
percent-encoded record to save_tag. -/
def addExisting (σ : Type) (C : Chart σ) (st : ExpState σ) (tag : Str)
    (data : PyData) (step : Option Int) (summary0 : TagData) : ExpState σ × AddOutcome :=
  let p := update_tag_num σ st tag
  let st1 := p.1
  let tag_num := p.2
  let index : Int := stepIndex step tag_num
  if index ∈ summary0.indexs then
    ({ st1 with warnings := st1.warnings ++ [Warning.duplicateStep index tag] }, .duplicate)
  else
    let data1 := stampData tag index data
    match C.tryConvert st1.chart (rawValue data1) tag with
    | none => (st1, .convertFailed)
    | some q =>
      let newMax : ℚ := pyMax summary0.max q
      let newMin : ℚ := pyMin summary0.min q
      let summary2 : TagData := ⟨tag_num, some newMax, some newMin, summary0.indexs ++ [index]⟩
      ({ st1 with
          tags := fun t => if t = tag then some summary2 else st1.tags t,
          saved := st1.saved ++ [⟨quote tag, q, index, tag_num, ⟨tag_num, some newMax, some newMin⟩⟩] },
        .ok q)

/-- ExperimentTable.add from experiment.py. -/
def add (σ : Type) (C : Chart σ) (st0 : ExpState σ) (tag : Str)
    (data : PyData) (step : Option Int) : ExpState σ × AddOutcome :=
  let p := addFirstSeen σ C st0 tag data step
  if C.isChartError p.1.chart tag then
    ({ p.1 with warnings := p.1.warnings ++ [Warning.chartError tag] }, .chartErrored)
  else
    match p.1.tags tag with
    | none => (p.1, .keyError)
    | some summary0 => addExisting σ C p.1 tag p.2 step summary0

/-- One queued add call. -/
structure AddCall where
  tag : Str
  data : PyData
  step : Option Int

/-- Run a sequence of add calls. -/
def runAdds (σ : Type) (C : Chart σ) : ExpState σ → List AddCall → ExpState σ
  | st, [] => st
  | st, c :: rest => runAdds σ C (add σ C st c.tag c.data c.step).1 rest

/-- The contribution of one add call with the given outcome to the list of
accepted values for a tag: its converted value when accepted for that tag. -/
def okContrib (t tag : Str) : AddOutcome → List ℚ
  | AddOutcome.ok q => if t = tag then [q] else []
  | _ => []

/-- The converted values of the accepted calls for one tag, in order,
along a sequence of add calls. -/
def acceptedVals (σ : Type) (C : Chart σ) : ExpState σ → List AddCall → Str → List ℚ
  | _, [], _ => []
  | st, c :: rest, tag =>
    let r := add σ C st c.tag c.data c.step
    okContrib c.tag tag r.2 ++ acceptedVals σ C r.1 rest tag

/-- The per-tag aggregate invariant: relative to the list vs of accepted
converted values for the tag, max/min are none exactly when no value was
accepted, and otherwise hold the true extrema of vs. -/
def AggOk (σ : Type) (st : ExpState σ) (tag : Str) (vs : List ℚ) : Prop :=
  match st.tags tag with
  | none => vs = []
  | some s =>
    (s.max = none ↔ vs = []) ∧ (s.min = none ↔ vs = []) ∧
    (∀ M, s.max = some M → M ∈ vs ∧ ∀ v ∈ vs, v ≤ M) ∧
    (∀ m, s.min = some m → m ∈ vs ∧ ∀ v ∈ vs, m ≤ v)

/-- The empty experiment state: no tags, nothing saved, no warnings. -/
def initState (σ : Type) (c : σ) : ExpState σ :=
  ⟨fun _ => none, c, [], []⟩

/-- A concrete chart sink used to instantiate the theorems: never errors,
converts ints and floats to their numeric value and other objects via
their float() result. -/
def idChart : Chart Unit :=
  { addTag := fun _ _ _ => ()
    isChartError := fun _ _ => false
    tryConvert := fun _ s _ =>
      match s with
      | .int i => some (i : ℚ)
      | .float q => some q
      | .other c => c }

/-- A concrete chart sink that reports every tag as permanently errored. -/
def errChart : Chart Unit :=
  { addTag := fun _ _ _ => ()
    isChartError := fun _ _ => true
    tryConvert := fun _ _ _ => none }

/-- A concrete tag name used by the witnesses. -/
def wTag : Str := ['l', 'o', 's', 's']

/-- The state after one accepted sample (value 5, step 1) for wTag. -/
def wState1 : ExpState Unit :=
  (add Unit idChart (initState Unit ()) wTag (PyData.scalar (Scalar.float 5)) (some 1)).1

/-- The state after one add on the always-errored chart: the tag entry was
created but the sample was dropped with a chart-error warning. -/
def wErrState : ExpState Unit :=
  (add Unit errChart (initState Unit ()) wTag (PyData.scalar (Scalar.float 5)) none).1

/-- A concrete two-call sequence used to instantiate the trace theorems. -/
def wCalls : List AddCall :=
  [⟨wTag, PyData.scalar (Scalar.float 5), some 1⟩,
    ⟨wTag, PyData.scalar (Scalar.float 7), some 2⟩]

theorem splitAux_append_noDash (s : Str) (l : Str) (h : '-' ∉ s) :
    splitAux (s ++ l) = (s ++ (splitAux l).1, (splitAux l).2) := by
  induction s with
  | nil => simp
  | cons c cs ih =>
    have hc : c ≠ '-' := fun hc => h (hc ▸ List.mem_cons_self c cs)
    have hcs : '-' ∉ cs := fun hm => h (List.mem_cons_of_mem c hm)
    simp [splitAux, ih hcs, hc]

theorem splitAux_dash_cons (l : Str) :
    splitAux ('-' :: l) = ([], (splitAux l).1 :: (splitAux l).2) := by
  simp [splitAux]

theorem splitOnDash_join (segs : List Str) (h0 : segs ≠ [])
    (h : ∀ s ∈ segs, '-' ∉ s) : splitOnDash (joinDash segs) = segs := by
  induction segs with
  | nil => exact absurd rfl h0
  | cons s rest ih =>
    cases rest with
    | nil =>
      have hs : '-' ∉ s := h s (List.mem_cons_self s [])
      have := splitAux_append_noDash s [] hs
      simp at this
      simp [joinDash, splitOnDash, this, splitAux]
    | cons t rest2 =>
      have hs : '-' ∉ s := h s (List.mem_cons_self s _)
      have hrest : ∀ u ∈ t :: rest2, '-' ∉ u := fun u hu => h u (List.mem_cons_of_mem s hu)
      have ihr := ih (by simp) hrest
      show splitOnDash (s ++ '-' :: joinDash (t :: rest2)) = _
      simp only [splitOnDash, splitAux_append_noDash s _ hs, splitAux_dash_cons]
      simp only [splitOnDash] at ihr
      simp [ihr]

theorem splitOnDash_noDash (l : Str) : ∀ s ∈ splitOnDash l, '-' ∉ s := by
  have key : ∀ l : Str, '-' ∉ (splitAux l).1 ∧ ∀ s ∈ (splitAux l).2, '-' ∉ s := by
    intro l
    induction l with
    | nil => simp [splitAux]
    | cons c cs ih =>
      by_cases hc : c = '-'
      · subst hc
        simpa [splitAux] using ⟨ih.1, ih.2⟩
      · simp only [splitAux]
        refine ⟨?_, ?_⟩
        · simp [hc, Ne.symm hc, ih.1]
        · simpa [hc] using ih.2
  intro s hs
  rcases List.mem_cons.mp hs with h1 | h2
  · exact h1 ▸ (key l).1
  · exact (key l).2 s h2

theorem splitOnDash_ne_nil (l : Str) : splitOnDash l ≠ [] := by
  simp [splitOnDash]

theorem pyInt_concat (l : Str) (c : Char) :
    pyInt (l ++ [c]) = 10 * pyInt l + charVal c := by
  simp [pyInt, List.foldl_append]

theorem charVal_digitToChar (d : Nat) (h : d < 10) :
    charVal (digitToChar d) = d := by
  interval_cases d <;> rfl

theorem digitToChar_isDigit (d : Nat) (h : d < 10) :
    (digitToChar d).isDigit = true := by
  interval_cases d <;> rfl

theorem natDigitsAux_pyInt (fuel : Nat) :
    ∀ n, n ≤ fuel → pyInt (natDigitsAux fuel n) = n := by
  induction fuel with
  | zero =>
    intro n hn
    interval_cases n
    rfl
  | succ fuel ih =>
    intro n hn
    by_cases h0 : n = 0
    · subst h0; rfl
    · have hdiv : n / 10 ≤ fuel := by omega
      have hmod : n % 10 < 10 := Nat.mod_lt _ (by norm_num)
      simp only [natDigitsAux, h0, if_false, pyInt_concat, ih _ hdiv,
        charVal_digitToChar _ hmod]
      omega

theorem natDigitsAux_digits (fuel : Nat) :
    ∀ n, ∀ c ∈ natDigitsAux fuel n, c.isDigit = true := by
  induction fuel with
  | zero => intro n c hc; simp [natDigitsAux] at hc
  | succ fuel ih =>
    intro n c hc
    by_cases h0 : n = 0
    · subst h0; simp [natDigitsAux] at hc
    · simp only [natDigitsAux, h0, if_false, List.mem_append, List.mem_singleton] at hc
      rcases hc with hc | hc
      · exact ih _ c hc
      · exact hc ▸ digitToChar_isDigit _ (Nat.mod_lt _ (by norm_num))

theorem natDigitsAux_ne_nil (fuel n : Nat) (h1 : 1 ≤ n) (h2 : n ≤ fuel) :
    natDigitsAux fuel n ≠ [] := by
  cases fuel with
  | zero => omega
  | succ fuel =>
    have h0 : n ≠ 0 := by omega
    simp [natDigitsAux, h0]

theorem pyStrOfNat_pyInt (n : Nat) : pyInt (pyStrOfNat n) = n := by
  by_cases h0 : n = 0
  · subst h0; rfl
  · simp only [pyStrOfNat, h0, if_false]
    exact natDigitsAux_pyInt n n le_rfl

theorem pyStrOfNat_ne_nil (n : Nat) : pyStrOfNat n ≠ [] := by
  by_cases h0 : n = 0
  · subst h0; simp [pyStrOfNat]
  · simp only [pyStrOfNat, h0, if_false]
    exact natDigitsAux_ne_nil n n (by omega) le_rfl

theorem pyStrOfNat_digits (n : Nat) : ∀ c ∈ pyStrOfNat n, c.isDigit = true := by
  by_cases h0 : n = 0
  · subst h0; intro c hc; simp [pyStrOfNat] at hc; subst hc; rfl
  · simp only [pyStrOfNat, h0, if_false]
    exact natDigitsAux_digits n n

theorem pyStrOfNat_isdigit (n : Nat) : pyIsdigit (pyStrOfNat n) = true := by
  have h1 := pyStrOfNat_ne_nil n
  have h2 := pyStrOfNat_digits n
  simp [pyIsdigit, List.isEmpty_iff, h1, List.all_eq_true]
  intro c hc
  exact h2 c hc

theorem pyStrOfNat_noDash (n : Nat) : '-' ∉ pyStrOfNat n := by
  intro hm
  have := pyStrOfNat_digits n '-' hm
  simp [Char.isDigit] at this

theorem pyStrOfNat_inj {m n : Nat} (h : pyStrOfNat m = pyStrOfNat n) : m = n := by
  have := congrArg pyInt h
  rwa [pyStrOfNat_pyInt, pyStrOfNat_pyInt] at this

theorem splitOnDash_canonName (b : List Str) (n : Nat)
    (hb : ∀ s ∈ b, '-' ∉ s) :
    splitOnDash (canonName b n) = b ++ [pyStrOfNat n] := by
  refine splitOnDash_join _ (by simp) ?_
  intro s hs
  rcases List.mem_append.mp hs with h1 | h2
  · exact hb s h1
  · simp only [List.mem_singleton] at h2
    exact h2 ▸ pyStrOfNat_noDash n

theorem getLastD_concat_eq {α : Type} (l : List α) (a d : α) :
    (l ++ [a]).getLastD d = a := by
  induction l with
  | nil => rfl
  | cons c cs ih =>
    cases cs with
    | nil => rfl
    | cons e es => simpa using ih

theorem nextName_canonName (b : List Str) (n : Nat)
    (hb : ∀ s ∈ b, '-' ∉ s) :
    nextName (canonName b n) = canonName b (n + 1) := by
  simp only [nextName, splitOnDash_canonName b n hb, getLastD_concat_eq,
    pyStrOfNat_isdigit, if_true, List.dropLast_concat, pyStrOfNat_pyInt]
  rfl

theorem canonName_inj (b : List Str) {m n : Nat}
    (hb : ∀ s ∈ b, '-' ∉ s) (h : canonName b m = canonName b n) : m = n := by
  have := congrArg splitOnDash h
  rw [splitOnDash_canonName b m hb, splitOnDash_canonName b n hb] at this
  exact pyStrOfNat_inj (by simpa using this)

theorem nextName_shape (name : Str) :
    ∃ b n, (∀ s ∈ b, '-' ∉ s) ∧ 1 ≤ n ∧ nextName name = canonName b n ∧
      ∀ k, canonName b (n + k) ≠ name := by
  rcases List.eq_nil_or_concat (splitOnDash name) with hnil | ⟨L, a, harr⟩
  · exact absurd hnil (splitOnDash_ne_nil name)
  rw [List.concat_eq_append] at harr
  by_cases hd : pyIsdigit ((splitOnDash name).getLastD []) = true
  · refine ⟨L, pyInt a + 1, ?_, by omega, ?_, ?_⟩
    · intro s hs
      exact splitOnDash_noDash name s (harr ▸ List.mem_append_left _ hs)
    · rw [nextName, if_pos hd, harr, getLastD_concat_eq, List.dropLast_concat]
      rfl
    · intro k hk
      have hL : ∀ s ∈ L, '-' ∉ s := fun s hs =>
        splitOnDash_noDash name s (harr ▸ List.mem_append_left _ hs)
      have := congrArg splitOnDash hk
      rw [splitOnDash_canonName L _ hL, harr] at this
      have ha : pyStrOfNat (pyInt a + 1 + k) = a := by simpa using this
      have := congrArg pyInt ha
      rw [pyStrOfNat_pyInt] at this
      omega
  · refine ⟨splitOnDash name, 1, splitOnDash_noDash name, le_rfl, ?_, ?_⟩
    · rw [nextName, if_neg hd]
      rfl
    · intro k hk
      have hb := splitOnDash_noDash name
      have := congrArg splitOnDash hk
      rw [splitOnDash_canonName _ _ hb] at this
      have := congrArg List.length this
      simp at this

theorem nextName_chain_inj (name : Str) {i j : Nat} (h : i < j) :
    nextName^[i] name ≠ nextName^[j] name := by
  obtain ⟨b, n, hb, hn, h1, h0⟩ := nextName_shape name
  have hiter : ∀ k, nextName^[k + 1] name = canonName b (n + k) := by
    intro k
    induction k with
    | zero => simpa using h1
    | succ k ih =>
      rw [Function.iterate_succ_apply', ih, nextName_canonName b _ hb]
      ring_nf
  cases i with
  | zero =>
    cases j with
    | zero => omega
    | succ j =>
      rw [Function.iterate_zero_apply, hiter j]
      exact fun he => h0 j he.symm
  | succ i =>
    cases j with
    | zero => omega
    | succ j =>
      rw [hiter i, hiter j]
      intro he
      have := canonName_inj b hb he
      omega

theorem escape_exists (name : Str) (S : List Str) :
    ∃ k, k ≤ S.length ∧ nextName^[k] name ∉ S := by
  by_contra hcon
  push_neg at hcon
  have hmem : ∀ k, k ≤ S.length → nextName^[k] name ∈ S := hcon
  have hinj : Set.InjOn (fun k => nextName^[k] name) ↑(Finset.range (S.length + 1)) := by
    intro i _ j _ hij
    by_contra hne
    rcases Nat.lt_or_ge i j with hlt | hge
    · exact nextName_chain_inj name hlt hij
    · have hlt : j < i := by omega
      exact nextName_chain_inj name hlt hij.symm
  have hsub : (Finset.range (S.length + 1)).image (fun k => nextName^[k] name) ⊆ S.toFinset := by
    intro x hx
    simp only [Finset.mem_image, Finset.mem_range] at hx
    obtain ⟨k, hk, rfl⟩ := hx
    exact List.mem_toFinset.mpr (hmem k (by omega))
  have hcard1 : ((Finset.range (S.length + 1)).image (fun k => nextName^[k] name)).card
      = S.length + 1 := by
    rw [Finset.card_image_of_injOn hinj, Finset.card_range]
  have hcard2 := Finset.card_le_card hsub
  have hcard3 := S.toFinset_card_le
  omega

theorem findEscape_notMem (S : List Str) (fuel : Nat) :
    ∀ name, (∃ k, k ≤ fuel ∧ nextName^[k] name ∉ S) → findEscape S fuel name ∉ S := by
  induction fuel with
  | zero =>
    intro name ⟨k, hk, hesc⟩
    interval_cases k
    simpa [findEscape] using hesc
  | succ fuel ih =>
    intro name ⟨k, hk, hesc⟩
    by_cases hm : name ∈ S
    · have hk0 : k ≠ 0 := by
        intro h0
        subst h0
        exact hesc hm
      obtain ⟨k', rfl⟩ : ∃ k', k = k' + 1 := ⟨k - 1, by omega⟩
      rw [Function.iterate_succ_apply] at hesc
      simpa [findEscape, hm] using ih (nextName name) ⟨k', by omega, hesc⟩
    · simp [findEscape, hm]


theorem rawValue_stampData (tag : Str) (index : Int) (d : PyData) :
    rawValue (stampData tag index d) = rawValue d := by
  cases d with
  | scalar s => rfl
  | base b =>
    by_cases hb : b.tag = none <;> simp [stampData, rawValue, hb, BaseObj.get_data]

theorem addFirstSeen_existing (σ : Type) (C : Chart σ) (st : ExpState σ) (tag : Str)
    (data : PyData) (step : Option Int) (s0 : TagData) (h : st.tags tag = some s0) :
    addFirstSeen σ C st tag data step = (st, data) := by
  simp [addFirstSeen, h]

theorem addFirstSeen_fresh (σ : Type) (C : Chart σ) (st : ExpState σ) (tag : Str)
    (data : PyData) (step : Option Int) (h : st.tags tag = none) :
    addFirstSeen σ C st tag data step =
      ({ st with
          tags := fun t => if t = tag then some initTagData else st.tags t,
          chart := C.addTag st.chart tag (stampFirst tag step data) },
        stampFirst tag step data) := by
  simp [addFirstSeen, h]

theorem addExisting_dup (σ : Type) (C : Chart σ) (st : ExpState σ) (tag : Str)
    (data : PyData) (step : Option Int) (s0 : TagData)
    (hex : st.tags tag = some s0)
    (hdup : stepIndex step (s0.num + 1) ∈ s0.indexs) :
    addExisting σ C st tag data step s0 =
      ({ st with
          tags := fun t => if t = tag then some { s0 with num := s0.num + 1 } else st.tags t,
          warnings := st.warnings ++ [Warning.duplicateStep (stepIndex step (s0.num + 1)) tag] },
        .duplicate) := by
  simp [addExisting, update_tag_num, hex, hdup]

theorem addExisting_convertFailed (σ : Type) (C : Chart σ) (st : ExpState σ) (tag : Str)
    (data : PyData) (step : Option Int) (s0 : TagData)
    (hex : st.tags tag = some s0)
    (hnodup : stepIndex step (s0.num + 1) ∉ s0.indexs)
    (hconv : C.tryConvert st.chart (rawValue data) tag = none) :
    addExisting σ C st tag data step s0 =
      ({ st with
          tags := fun t => if t = tag then some { s0 with num := s0.num + 1 } else st.tags t },
        .convertFailed) := by
  simp [addExisting, update_tag_num, hex, hnodup, rawValue_stampData, hconv]

theorem addExisting_ok (σ : Type) (C : Chart σ) (st : ExpState σ) (tag : Str)
    (data : PyData) (step : Option Int) (s0 : TagData) (q : ℚ)
    (hex : st.tags tag = some s0)
    (hnodup : stepIndex step (s0.num + 1) ∉ s0.indexs)
    (hconv : C.tryConvert st.chart (rawValue data) tag = some q) :
    addExisting σ C st tag data step s0 =
      ({ st with
          tags := fun t => if t = tag then
              some ⟨s0.num + 1, some (pyMax s0.max q), some (pyMin s0.min q),
                s0.indexs ++ [stepIndex step (s0.num + 1)]⟩
            else st.tags t,
          saved := st.saved ++ [⟨quote tag, q, stepIndex step (s0.num + 1), s0.num + 1,
            ⟨s0.num + 1, some (pyMax s0.max q), some (pyMin s0.min q)⟩⟩] },
        .ok q) := by
  simp only [addExisting, update_tag_num, hex, hnodup, rawValue_stampData, hconv,
    if_false, ite_false]
  simp [hnodup]
  funext t
  by_cases ht : t = tag <;> simp [ht]

theorem add_chartError (σ : Type) (C : Chart σ) (st0 : ExpState σ) (tag : Str)
    (data : PyData) (step : Option Int)
    (herr : C.isChartError (addFirstSeen σ C st0 tag data step).1.chart tag = true) :
    add σ C st0 tag data step =
      ({ (addFirstSeen σ C st0 tag data step).1 with
          warnings := (addFirstSeen σ C st0 tag data step).1.warnings ++ [Warning.chartError tag] },
        .chartErrored) := by
  simp [add, herr]

theorem add_existing_noErr (σ : Type) (C : Chart σ) (st0 : ExpState σ) (tag : Str)
    (data : PyData) (step : Option Int) (s0 : TagData)
    (hex : st0.tags tag = some s0)
    (herr : C.isChartError st0.chart tag = false) :
    add σ C st0 tag data step = addExisting σ C st0 tag data step s0 := by
  simp [add, addFirstSeen_existing σ C st0 tag data step s0 hex, herr, hex]

theorem add_fresh_noErr (σ : Type) (C : Chart σ) (st0 : ExpState σ) (tag : Str)
    (data : PyData) (step : Option Int)
    (hex : st0.tags tag = none)
    (herr : C.isChartError (C.addTag st0.chart tag (stampFirst tag step data)) tag = false) :
    add σ C st0 tag data step =
      addExisting σ C
        { st0 with
            tags := fun t => if t = tag then some initTagData else st0.tags t,
            chart := C.addTag st0.chart tag (stampFirst tag step data) }
        tag (stampFirst tag step data) step initTagData := by
  simp [add, addFirstSeen_fresh σ C st0 tag data step hex, herr]

theorem AggOk_eq_of_tags (σ : Type) (st st2 : ExpState σ) (tag : Str) (vs : List ℚ)
    (h : st2.tags tag = st.tags tag) (hagg : AggOk σ st tag vs) : AggOk σ st2 tag vs := by
  unfold AggOk at hagg ⊢
  rw [h]
  exact hagg

theorem AggOk_fresh (σ : Type) (st : ExpState σ) (t tag : Str) (vs : List ℚ) (c : σ)
    (h : st.tags t = none) (hagg : AggOk σ st tag vs) :
    AggOk σ { st with
        tags := fun t2 => if t2 = t then some initTagData else st.tags t2,
        chart := c } tag vs := by
  by_cases htag : tag = t
  · subst htag
    unfold AggOk at hagg
    rw [h] at hagg
    subst hagg
    simp [AggOk, initTagData]
  · unfold AggOk at hagg ⊢
    simpa [htag] using hagg

theorem AggOk_dup_entry (σ : Type) (st : ExpState σ) (t tag : Str) (vs : List ℚ)
    (s0 : TagData) (hex : st.tags t = some s0) (hagg : AggOk σ st tag vs)
    (st2 : ExpState σ)
    (h2 : st2.tags = fun t2 => if t2 = t then some { s0 with num := s0.num + 1 } else st.tags t2) :
    AggOk σ st2 tag vs := by
  by_cases htag : tag = t
  · subst htag
    unfold AggOk at hagg ⊢
    rw [hex] at hagg
    rw [h2]
    simpa using hagg
  · unfold AggOk at hagg ⊢
    rw [h2]
    simpa [htag] using hagg

theorem AggOk_accept_entry (σ : Type) (st : ExpState σ) (t : Str) (vs : List ℚ)
    (s0 : TagData) (q : ℚ) (ix : Int) (hex : st.tags t = some s0) (hagg : AggOk σ st t vs)
    (st2 : ExpState σ)
    (h2 : st2.tags = fun t2 => if t2 = t then
        some ⟨s0.num + 1, some (pyMax s0.max q), some (pyMin s0.min q), s0.indexs ++ [ix]⟩
      else st.tags t2) :
    AggOk σ st2 t (vs ++ [q]) := by
  unfold AggOk at hagg ⊢
  rw [hex] at hagg
  rw [h2]
  simp only [if_pos rfl]
  obtain ⟨hmax0, hmin0, hmaxb, hminb⟩ := hagg
  refine ⟨by simp, by simp, ?_, ?_⟩
  · intro M hM
    simp only [Option.some_inj] at hM
    subst hM
    cases hm : s0.max with
    | none =>
      have hvs : vs = [] := hmax0.mp hm
      subst hvs
      simp [pyMax, hm]
    | some m =>
      obtain ⟨hmem, hbound⟩ := hmaxb m hm
      simp only [pyMax, hm]
      constructor
      · rcases le_total m q with hle | hle
        · simp [max_eq_right hle]
        · simp [max_eq_left hle, hmem]
      · intro v hv
        rcases List.mem_append.mp hv with h1 | h1
        · exact le_trans (hbound v h1) (le_max_left m q)
        · simp only [List.mem_singleton] at h1
          exact h1 ▸ le_max_right m q
  · intro m2 hm2
    simp only [Option.some_inj] at hm2
    subst hm2
    cases hm : s0.min with
    | none =>
      have hvs : vs = [] := hmin0.mp hm
      subst hvs
      simp [pyMin, hm]
    | some m =>
      obtain ⟨hmem, hbound⟩ := hminb m hm
      simp only [pyMin, hm]
      constructor
      · rcases le_total m q with hle | hle
        · simp [min_eq_left hle, hmem]
        · simp [min_eq_right hle]
      · intro v hv
        rcases List.mem_append.mp hv with h1 | h1
        · exact le_trans (min_le_left m q) (hbound v h1)
        · simp only [List.mem_singleton] at h1
          exact h1 ▸ min_le_right m q

theorem AggOk_accept_other (σ : Type) (st : ExpState σ) (t tag : Str) (vs : List ℚ)
    (s0 : TagData) (q : ℚ) (ix : Int) (htag : tag ≠ t) (hagg : AggOk σ st tag vs)
    (st2 : ExpState σ)
    (h2 : st2.tags = fun t2 => if t2 = t then
        some ⟨s0.num + 1, some (pyMax s0.max q), some (pyMin s0.min q), s0.indexs ++ [ix]⟩
      else st.tags t2) :
    AggOk σ st2 tag vs := by
  unfold AggOk at hagg ⊢
  rw [h2]
  simpa [htag] using hagg

theorem AggOk_addExisting (σ : Type) (C : Chart σ) (st : ExpState σ) (t : Str)
    (d : PyData) (stp : Option Int) (s0 : TagData) (tag : Str) (vs : List ℚ)
    (hex : st.tags t = some s0) (hagg : AggOk σ st tag vs) :
    AggOk σ (addExisting σ C st t d stp s0).1 tag
      (vs ++ okContrib t tag (addExisting σ C st t d stp s0).2) := by
  by_cases hdup : stepIndex stp (s0.num + 1) ∈ s0.indexs
  · rw [addExisting_dup σ C st t d stp s0 hex hdup]
    simpa [okContrib] using AggOk_dup_entry σ st t tag vs s0 hex hagg _ rfl
  · cases hconv : C.tryConvert st.chart (rawValue d) t with
    | none =>
      rw [addExisting_convertFailed σ C st t d stp s0 hex hdup hconv]
      simpa [okContrib] using AggOk_dup_entry σ st t tag vs s0 hex hagg _ rfl
    | some q =>
      rw [addExisting_ok σ C st t d stp s0 q hex hdup hconv]
      by_cases htag : t = tag
      · subst htag
        simpa [okContrib] using AggOk_accept_entry σ st t vs s0 q _ hex hagg _ rfl
      · have htag2 : tag ≠ t := Ne.symm htag
        simpa [okContrib, htag] using AggOk_accept_other σ st t tag vs s0 q _ htag2 hagg _ rfl

theorem AggOk_add (σ : Type) (C : Chart σ) (st : ExpState σ) (t : Str) (d : PyData)
    (stp : Option Int) (tag : Str) (vs : List ℚ) (hagg : AggOk σ st tag vs) :
    AggOk σ (add σ C st t d stp).1 tag
      (vs ++ okContrib t tag (add σ C st t d stp).2) := by
  cases hex : st.tags t with
  | some s0 =>
    by_cases herr : C.isChartError st.chart t = true
    · have hfe := addFirstSeen_existing σ C st t d stp s0 hex
      have heq := add_chartError σ C st t d stp (by rw [hfe]; exact herr)
      rw [hfe] at heq
      rw [heq]
      simpa [okContrib] using AggOk_eq_of_tags σ st _ tag vs rfl hagg
    · have herr2 : C.isChartError st.chart t = false := by simpa using herr
      rw [add_existing_noErr σ C st t d stp s0 hex herr2]
      exact AggOk_addExisting σ C st t d stp s0 tag vs hex hagg
  | none =>
    have hfe := addFirstSeen_fresh σ C st t d stp hex
    have h1 := AggOk_fresh σ st t tag vs (C.addTag st.chart t (stampFirst t stp d)) hex hagg
    by_cases herr : C.isChartError (C.addTag st.chart t (stampFirst t stp d)) t = true
    · have heq := add_chartError σ C st t d stp (by rw [hfe]; exact herr)
      rw [hfe] at heq
      rw [heq]
      simpa [okContrib] using AggOk_eq_of_tags σ _ _ tag vs rfl h1
    · have herr2 : C.isChartError (C.addTag st.chart t (stampFirst t stp d)) t = false := by
        simpa using herr
      rw [add_fresh_noErr σ C st t d stp hex herr2]
      exact AggOk_addExisting σ C _ t (stampFirst t stp d) stp initTagData tag vs (by simp) h1

theorem AggOk_runAdds (σ : Type) (C : Chart σ) (calls : List AddCall) :
    ∀ st tag vs, AggOk σ st tag vs →
      AggOk σ (runAdds σ C st calls) tag (vs ++ acceptedVals σ C st calls tag) := by
  induction calls with
  | nil =>
    intro st tag vs h
    simpa [runAdds, acceptedVals] using h
  | cons c rest ih =>
    intro st tag vs h
    have hstep := AggOk_add σ C st c.tag c.data c.step tag vs h
    have hrest := ih (add σ C st c.tag c.data c.step).1 tag _ hstep
    simpa [runAdds, acceptedVals, List.append_assoc] using hrest

theorem findEscape_fuel_succ (S : List Str) (fuel : Nat) :
    ∀ name, (∃ k, k ≤ fuel ∧ nextName^[k] name ∉ S) →
      findEscape S (fuel + 1) name = findEscape S fuel name := by
  induction fuel with
  | zero =>
    intro name ⟨k, hk, hesc⟩
    interval_cases k
    simp only [Function.iterate_zero_apply] at hesc
    simp [findEscape, hesc]
  | succ fuel ih =>
    intro name ⟨k, hk, hesc⟩
    by_cases hm : name ∈ S
    · have hk0 : k ≠ 0 := by
        intro h0
        subst h0
        exact hesc hm
      obtain ⟨k2, rfl⟩ : ∃ k2, k = k2 + 1 := ⟨k - 1, by omega⟩
      rw [Function.iterate_succ_apply] at hesc
      simp only [findEscape, hm, if_true]
      exact ih (nextName name) ⟨k2, by omega, hesc⟩
    · simp [findEscape, hm]

theorem make_experiment_name_unique_eq (name : Str) (exists_name : List Str) :
    make_experiment_name_unique name exists_name =
      if name ∈ exists_name then make_experiment_name_unique (nextName name) exists_name
      else name := by
  by_cases hm : name ∈ exists_name
  · rw [if_pos hm]
    show findEscape exists_name (exists_name.length + 1) name = _
    obtain ⟨k, hk, hesc⟩ := escape_exists name exists_name
    have hk0 : k ≠ 0 := by
      intro h0
      subst h0
      exact hesc hm
    obtain ⟨k2, rfl⟩ : ∃ k2, k = k2 + 1 := ⟨k - 1, by omega⟩
    rw [Function.iterate_succ_apply] at hesc
    have h1 : findEscape exists_name (exists_name.length + 1) name
        = findEscape exists_name exists_name.length (nextName name) := by
      simp [findEscape, hm]
    rw [h1, make_experiment_name_unique,
      findEscape_fuel_succ exists_name exists_name.length (nextName name) ⟨k2, by omega, hesc⟩]
  · rw [if_neg hm]
    simp [make_experiment_name_unique, findEscape, hm]

/-- C3: make_experiment_name_unique returns a name that is not in the
existing-name list, and a candidate that does not collide is returned
unchanged. -/
theorem claim_C3 (name : Str) (exists_name : List Str) :
    make_experiment_name_unique name exists_name ∉ exists_name ∧
      (name ∉ exists_name → make_experiment_name_unique name exists_name = name) := by
  constructor
  · obtain ⟨k, hk, hesc⟩ := escape_exists name exists_name
    exact findEscape_notMem exists_name (exists_name.length + 1) name ⟨k, by omega, hesc⟩
  · intro h
    simp [make_experiment_name_unique, findEscape, h]

theorem claim_C3_witness :
    make_experiment_name_unique ['n', 'e', 'w'] [['o', 't', 'h', 'e', 'r']] ∉ [['o', 't', 'h', 'e', 'r']] ∧
      (['n', 'e', 'w'] ∉ [['o', 't', 'h', 'e', 'r']] →
        make_experiment_name_unique ['n', 'e', 'w'] [['o', 't', 'h', 'e', 'r']] = ['n', 'e', 'w']) :=
  claim_C3 ['n', 'e', 'w'] [['o', 't', 'h', 'e', 'r']]

/-- C4: the recursion in make_experiment_name_unique terminates: iterating
the suffix-increment successor from any candidate leaves any finite
existing-name list within its length many steps, so the recursion reaches
its base case, and the total function defined here satisfies the source's
recursion equation. -/
theorem claim_C4 (name : Str) (exists_name : List Str) :
    (∃ k, k ≤ exists_name.length ∧ nextName^[k] name ∉ exists_name) ∧
      make_experiment_name_unique name exists_name
        = (if name ∈ exists_name then make_experiment_name_unique (nextName name) exists_name
          else name) :=
  ⟨escape_exists name exists_name, make_experiment_name_unique_eq name exists_name⟩

/-- C5: the concrete cases: ("run", {"run"}) gives "run-1"; ("run-1",
{"run","run-1"}) gives "run-2"; ("exp-a", {"exp-a"}) gives "exp-a-1", the
non-numeric final segment receiving a literal appended "1". -/
theorem claim_C5 :
    make_experiment_name_unique ['r', 'u', 'n'] [['r', 'u', 'n']] = ['r', 'u', 'n', '-', '1'] ∧
      make_experiment_name_unique ['r', 'u', 'n', '-', '1'] [['r', 'u', 'n'], ['r', 'u', 'n', '-', '1']]
        = ['r', 'u', 'n', '-', '2'] ∧
      make_experiment_name_unique ['e', 'x', 'p', '-', 'a'] [['e', 'x', 'p', '-', 'a']]
        = ['e', 'x', 'p', '-', 'a', '-', '1'] := by
  decide

/-- C1 counterexample: starting from a state holding one accepted sample at
step 1, a second add for the same (tag, step) is dropped as a duplicate yet
increments the tag's count from 1 to 2, so the claim that the second call
leaves the count unchanged fails on the code. -/
theorem claim_C1_counterexample :
    (add Unit idChart wState1 wTag (PyData.scalar (Scalar.float 7)) (some 1)).2
        = AddOutcome.duplicate ∧
      (wState1.tags wTag).map TagData.num = some 1 ∧
      ((add Unit idChart wState1 wTag (PyData.scalar (Scalar.float 7)) (some 1)).1.tags
          wTag).map TagData.num = some 2 := by
  decide

/-- C1 (amended): a second add for an already-recorded (tag, step) emits the
duplicate warning naming the step and the tag and drops the sample: max,
min and the recorded step set stay unchanged, no other tag changes and
nothing reaches persistence, but the tag's count (num) is incremented by
the dropped call. -/
theorem claim_C1_amended (σ : Type) (C : Chart σ) (st : ExpState σ) (tag : Str)
    (data : PyData) (step : Option Int) (s0 : TagData)
    (hex : st.tags tag = some s0)
    (herr : C.isChartError st.chart tag = false)
    (hdup : stepIndex step (s0.num + 1) ∈ s0.indexs) :
    (add σ C st tag data step).2 = AddOutcome.duplicate ∧
      (add σ C st tag data step).1.warnings
        = st.warnings ++ [Warning.duplicateStep (stepIndex step (s0.num + 1)) tag] ∧
      (add σ C st tag data step).1.tags tag = some { s0 with num := s0.num + 1 } ∧
      (∀ t, t ≠ tag → (add σ C st tag data step).1.tags t = st.tags t) ∧
      (add σ C st tag data step).1.saved = st.saved := by
  rw [add_existing_noErr σ C st tag data step s0 hex herr,
    addExisting_dup σ C st tag data step s0 hex hdup]
  refine ⟨rfl, rfl, by simp, ?_, rfl⟩
  intro t ht
  simp [ht]

theorem claim_C1_amended_witness :
    (add Unit idChart wState1 wTag (PyData.scalar (Scalar.float 7)) (some 1)).2
      = AddOutcome.duplicate :=
  (claim_C1_amended Unit idChart wState1 wTag (PyData.scalar (Scalar.float 7)) (some 1)
    ⟨1, some 5, some 5, [1]⟩ (by decide) (by decide) (by decide)).1

/-- C2: after any sequence of add calls from the empty state, a tag's max
is the true maximum and its min the true minimum of the accepted, converted
values recorded so far for that tag, and both stay none until the first
accepted sample. -/
theorem claim_C2 (σ : Type) (C : Chart σ) (c0 : σ) (calls : List AddCall) (tag : Str) :
    (∀ s, (runAdds σ C (initState σ c0) calls).tags tag = some s →
       (s.max = none ↔ acceptedVals σ C (initState σ c0) calls tag = []) ∧
       (s.min = none ↔ acceptedVals σ C (initState σ c0) calls tag = []) ∧
       (∀ M, s.max = some M → M ∈ acceptedVals σ C (initState σ c0) calls tag ∧
          ∀ v ∈ acceptedVals σ C (initState σ c0) calls tag, v ≤ M) ∧
       (∀ m, s.min = some m → m ∈ acceptedVals σ C (initState σ c0) calls tag ∧
          ∀ v ∈ acceptedVals σ C (initState σ c0) calls tag, m ≤ v)) ∧
    ((runAdds σ C (initState σ c0) calls).tags tag = none →
       acceptedVals σ C (initState σ c0) calls tag = []) := by
  have h := AggOk_runAdds σ C calls (initState σ c0) tag [] (by simp [AggOk, initState])
  simp only [List.nil_append] at h
  unfold AggOk at h
  constructor
  · intro s hs
    rw [hs] at h
    exact h
  · intro hn
    rw [hn] at h
    exact h

theorem claim_C2_witness :
    (7 : ℚ) ∈ acceptedVals Unit idChart (initState Unit ()) wCalls wTag ∧
      ∀ v ∈ acceptedVals Unit idChart (initState Unit ()) wCalls wTag, v ≤ 7 :=
  ((claim_C2 Unit idChart () wCalls wTag).1 ⟨2, some 7, some 5, [1, 2]⟩
    (by decide)).2.2.1 7 (by decide)

/-- C6: when the chart sink reports a (previously created) tag as errored,
add emits the chart-error warning and changes nothing else: the whole
state, tags mapping and persistence log included, is preserved. -/
theorem claim_C6 (σ : Type) (C : Chart σ) (st : ExpState σ) (tag : Str)
    (data : PyData) (step : Option Int) (s0 : TagData)
    (hex : st.tags tag = some s0)
    (herr : C.isChartError st.chart tag = true) :
    add σ C st tag data step
      = ({ st with warnings := st.warnings ++ [Warning.chartError tag] },
          AddOutcome.chartErrored) := by
  have hfe := addFirstSeen_existing σ C st tag data step s0 hex
  have heq := add_chartError σ C st tag data step (by rw [hfe]; exact herr)
  rw [hfe] at heq
  exact heq

theorem claim_C6_witness :
    add Unit errChart wErrState wTag (PyData.scalar (Scalar.float 7)) none
      = ({ wErrState with warnings := wErrState.warnings ++ [Warning.chartError wTag] },
          AddOutcome.chartErrored) :=
  claim_C6 Unit errChart wErrState wTag (PyData.scalar (Scalar.float 7)) none
    initTagData (by decide) (by decide)

/-- C7: an accepted sample is recorded at the explicit step when one is
given, and otherwise at the tag's sample count after this call's
increment. -/
theorem claim_C7 (σ : Type) (C : Chart σ) (st : ExpState σ) (tag : Str)
    (data : PyData) (step : Option Int) (s0 : TagData) (q : ℚ)
    (hex : st.tags tag = some s0)
    (herr : C.isChartError st.chart tag = false)
    (hnodup : stepIndex step (s0.num + 1) ∉ s0.indexs)
    (hconv : C.tryConvert st.chart (rawValue data) tag = some q) :
    (add σ C st tag data step).2 = AddOutcome.ok q ∧
      ∃ r, (add σ C st tag data step).1.saved = st.saved ++ [r] ∧
        r.tag_num = s0.num + 1 ∧
        r.index = stepIndex step (s0.num + 1) ∧
        (∀ s, step = some s → r.index = s) ∧
        (step = none → r.index = ((s0.num + 1 : Nat) : Int)) := by
  rw [add_existing_noErr σ C st tag data step s0 hex herr,
    addExisting_ok σ C st tag data step s0 q hex hnodup hconv]
  refine ⟨rfl, ⟨_, rfl, rfl, rfl, ?_, ?_⟩⟩
  · intro s hs
    subst hs
    rfl
  · intro hs
    subst hs
    rfl

theorem claim_C7_witness :
    (add Unit idChart wState1 wTag (PyData.scalar (Scalar.float 7)) none).2
      = AddOutcome.ok 7 :=
  (claim_C7 Unit idChart wState1 wTag (PyData.scalar (Scalar.float 7)) none
    ⟨1, some 5, some 5, [1]⟩ 7 (by decide) (by decide) (by decide) (by decide)).1

/-- C8: when the value of an add call fails numeric conversion, the failure
is signalled: the call aborts with a conversion failure, nothing is handed
to persistence, and the tag's max and min are left untouched (only num has
already been incremented); check_data_type likewise returns None rather
than a value for an unconvertible scalar. -/
theorem claim_C8 (σ : Type) (C : Chart σ) (st : ExpState σ) (tag : Str)
    (data : PyData) (step : Option Int) (s0 : TagData)
    (hex : st.tags tag = some s0)
    (herr : C.isChartError st.chart tag = false)
    (hnodup : stepIndex step (s0.num + 1) ∉ s0.indexs)
    (hconv : C.tryConvert st.chart (rawValue data) tag = none) :
    (add σ C st tag data step).2 = AddOutcome.convertFailed ∧
      (add σ C st tag data step).1.saved = st.saved ∧
      (add σ C st tag data step).1.tags tag = some { s0 with num := s0.num + 1 } ∧
      check_data_type (PyData.scalar (Scalar.other none)) = none := by
  rw [add_existing_noErr σ C st tag data step s0 hex herr,
    addExisting_convertFailed σ C st tag data step s0 hex hnodup hconv]
  exact ⟨rfl, rfl, by simp, rfl⟩

theorem claim_C8_witness :
    (add Unit idChart wState1 wTag (PyData.scalar (Scalar.other none)) none).2
      = AddOutcome.convertFailed :=
  (claim_C8 Unit idChart wState1 wTag (PyData.scalar (Scalar.other none)) none
    ⟨1, some 5, some 5, [1]⟩ (by decide) (by decide) (by decide) (by decide)).1

/-- C9: the record handed to persistence carries the percent-encoded tag
name, while the in-memory tags mapping is updated under the original,
unencoded key and every other key is untouched. -/
theorem claim_C9 (σ : Type) (C : Chart σ) (st : ExpState σ) (tag : Str)
    (data : PyData) (step : Option Int) (s0 : TagData) (q : ℚ)
    (hex : st.tags tag = some s0)
    (herr : C.isChartError st.chart tag = false)
    (hnodup : stepIndex step (s0.num + 1) ∉ s0.indexs)
    (hconv : C.tryConvert st.chart (rawValue data) tag = some q) :
    ∃ r, (add σ C st tag data step).1.saved = st.saved ++ [r] ∧
      r.tag = quote tag ∧
      (add σ C st tag data step).1.tags tag
        = some ⟨s0.num + 1, some (pyMax s0.max q), some (pyMin s0.min q),
            s0.indexs ++ [stepIndex step (s0.num + 1)]⟩ ∧
      (∀ t, t ≠ tag → (add σ C st tag data step).1.tags t = st.tags t) := by
  rw [add_existing_noErr σ C st tag data step s0 hex herr,
    addExisting_ok σ C st tag data step s0 q hex hnodup hconv]
  refine ⟨_, rfl, rfl, by simp, ?_⟩
  intro t ht
  simp [ht]

theorem claim_C9_witness :
    ∃ r, (add Unit idChart wState1 wTag (PyData.scalar (Scalar.float 7)) none).1.saved
        = wState1.saved ++ [r] ∧
      r.tag = quote wTag ∧
      (add Unit idChart wState1 wTag (PyData.scalar (Scalar.float 7)) none).1.tags wTag
        = some ⟨1 + 1, some (pyMax (some 5) 7), some (pyMin (some 5) 7),
            [1] ++ [stepIndex none (1 + 1)]⟩ ∧
      (∀ t, t ≠ wTag →
        (add Unit idChart wState1 wTag (PyData.scalar (Scalar.float 7)) none).1.tags t
          = wState1.tags t) :=
  claim_C9 Unit idChart wState1 wTag (PyData.scalar (Scalar.float 7)) none
    ⟨1, some 5, some 5, [1]⟩ 7 (by decide) (by decide) (by decide) (by decide)

theorem counts_addExisting (σ : Type) (C : Chart σ) (st : ExpState σ) (t : Str)
    (d : PyData) (stp : Option Int) (s0 : TagData)
    (hex : st.tags t = some s0)
    (hinv : ∀ tg s, st.tags tg = some s → s.indexs.length ≤ s.num) :
    (∀ tg s, (addExisting σ C st t d stp s0).1.tags tg = some s → s.indexs.length ≤ s.num) ∧
    (∀ tg s s2, st.tags tg = some s → (addExisting σ C st t d stp s0).1.tags tg = some s2 →
        s.indexs.length < s.num → s2.indexs.length < s2.num) ∧
    ((addExisting σ C st t d stp s0).2 = AddOutcome.duplicate →
        ∃ s2, (addExisting σ C st t d stp s0).1.tags t = some s2 ∧
          s2.indexs.length < s2.num) ∧
    (∃ s2, (addExisting σ C st t d stp s0).1.tags t = some s2 ∧ s2.num = s0.num + 1) := by
  have hlen : s0.indexs.length ≤ s0.num := hinv t s0 hex
  by_cases hdup : stepIndex stp (s0.num + 1) ∈ s0.indexs
  · rw [addExisting_dup σ C st t d stp s0 hex hdup]
    have hc1 : ∀ tg s,
        (if tg = t then some { s0 with num := s0.num + 1 } else st.tags tg) = some s →
          s.indexs.length ≤ s.num := by
      intro tg s hs
      by_cases htg : tg = t
      · rw [if_pos htg] at hs
        injection hs with hs
        subst hs
        simpa using Nat.le_succ_of_le hlen
      · rw [if_neg htg] at hs
        exact hinv tg s hs
    have hc2 : ∀ tg s s2, st.tags tg = some s →
        (if tg = t then some { s0 with num := s0.num + 1 } else st.tags tg) = some s2 →
          s.indexs.length < s.num → s2.indexs.length < s2.num := by
      intro tg s s2 h1 h2 hlt
      by_cases htg : tg = t
      · subst htg
        rw [hex] at h1
        injection h1 with h1
        subst h1
        rw [if_pos rfl] at h2
        injection h2 with h2
        subst h2
        simpa using Nat.lt_succ_of_lt hlt
      · rw [if_neg htg] at h2
        rw [h1] at h2
        injection h2 with h2
        subst h2
        exact hlt
    have hne : 1 ≤ s0.indexs.length := by
      cases hx : s0.indexs with
      | nil => rw [hx] at hdup; simp at hdup
      | cons a l => simp
    exact ⟨hc1, hc2,
      fun _ => ⟨{ s0 with num := s0.num + 1 }, by simp, by simp; omega⟩,
      ⟨{ s0 with num := s0.num + 1 }, by simp, rfl⟩⟩
  · cases hconv : C.tryConvert st.chart (rawValue d) t with
    | none =>
      rw [addExisting_convertFailed σ C st t d stp s0 hex hdup hconv]
      have hc1 : ∀ tg s,
          (if tg = t then some { s0 with num := s0.num + 1 } else st.tags tg) = some s →
            s.indexs.length ≤ s.num := by
        intro tg s hs
        by_cases htg : tg = t
        · rw [if_pos htg] at hs
          injection hs with hs
          subst hs
          simpa using Nat.le_succ_of_le hlen
        · rw [if_neg htg] at hs
          exact hinv tg s hs
      have hc2 : ∀ tg s s2, st.tags tg = some s →
          (if tg = t then some { s0 with num := s0.num + 1 } else st.tags tg) = some s2 →
            s.indexs.length < s.num → s2.indexs.length < s2.num := by
        intro tg s s2 h1 h2 hlt
        by_cases htg : tg = t
        · subst htg
          rw [hex] at h1
          injection h1 with h1
          subst h1
          rw [if_pos rfl] at h2
          injection h2 with h2
          subst h2
          simpa using Nat.lt_succ_of_lt hlt
        · rw [if_neg htg] at h2
          rw [h1] at h2
          injection h2 with h2
          subst h2
          exact hlt
      exact ⟨hc1, hc2, fun h => by simp at h,
        ⟨{ s0 with num := s0.num + 1 }, by simp, rfl⟩⟩
    | some q =>
      rw [addExisting_ok σ C st t d stp s0 q hex hdup hconv]
      have hc1 : ∀ tg s,
          (if tg = t then
              some (⟨s0.num + 1, some (pyMax s0.max q), some (pyMin s0.min q),
                s0.indexs ++ [stepIndex stp (s0.num + 1)]⟩ : TagData)
            else st.tags tg) = some s →
            s.indexs.length ≤ s.num := by
        intro tg s hs
        by_cases htg : tg = t
        · rw [if_pos htg] at hs
          injection hs with hs
          subst hs
          simp
          omega
        · rw [if_neg htg] at hs
          exact hinv tg s hs
      have hc2 : ∀ tg s s2, st.tags tg = some s →
          (if tg = t then
              some (⟨s0.num + 1, some (pyMax s0.max q), some (pyMin s0.min q),
                s0.indexs ++ [stepIndex stp (s0.num + 1)]⟩ : TagData)
            else st.tags tg) = some s2 →
            s.indexs.length < s.num → s2.indexs.length < s2.num := by
        intro tg s s2 h1 h2 hlt
        by_cases htg : tg = t
        · subst htg
          rw [hex] at h1
          injection h1 with h1
          subst h1
          rw [if_pos rfl] at h2
          injection h2 with h2
          subst h2
          simp
          omega
        · rw [if_neg htg] at h2
          rw [h1] at h2
          injection h2 with h2
          subst h2
          exact hlt
      exact ⟨hc1, hc2, fun h => by simp at h,
        ⟨⟨s0.num + 1, some (pyMax s0.max q), some (pyMin s0.min q),
          s0.indexs ++ [stepIndex stp (s0.num + 1)]⟩, by simp, rfl⟩⟩

/-- C10: num is incremented by every add call that passes the chart-error
check, dropped duplicates included, so the count dominates the number of
recorded step indices, strictly after a duplicate-step call, and the strict
gap is preserved by every later call. -/
theorem claim_C10 (σ : Type) (C : Chart σ) (st : ExpState σ) (t : Str) (d : PyData)
    (stp : Option Int)
    (hinv : ∀ tg s, st.tags tg = some s → s.indexs.length ≤ s.num) :
    (∀ tg s, (add σ C st t d stp).1.tags tg = some s → s.indexs.length ≤ s.num) ∧
    (∀ tg s s2, st.tags tg = some s → (add σ C st t d stp).1.tags tg = some s2 →
        s.indexs.length < s.num → s2.indexs.length < s2.num) ∧
    ((add σ C st t d stp).2 = AddOutcome.duplicate →
        ∃ s2, (add σ C st t d stp).1.tags t = some s2 ∧ s2.indexs.length < s2.num) ∧
    ((add σ C st t d stp).2 ≠ AddOutcome.chartErrored ∧
        (add σ C st t d stp).2 ≠ AddOutcome.keyError →
        ∃ s2, (add σ C st t d stp).1.tags t = some s2 ∧
          s2.num = (match st.tags t with
            | some s1 => s1.num
            | none => 0) + 1) := by
  cases hex : st.tags t with
  | some s0 =>
    by_cases herr : C.isChartError st.chart t = true
    · have hfe := addFirstSeen_existing σ C st t d stp s0 hex
      have heq := add_chartError σ C st t d stp (by rw [hfe]; exact herr)
      rw [hfe] at heq
      rw [heq]
      refine ⟨?_, ?_, fun h => by simp at h, fun h => absurd rfl h.1⟩
      · intro tg s hs
        exact hinv tg s hs
      · intro tg s s2 h1 h2 hlt
        dsimp only at h2
        rw [h1] at h2
        injection h2 with h2
        subst h2
        exact hlt
    · have herr2 : C.isChartError st.chart t = false := by simpa using herr
      rw [add_existing_noErr σ C st t d stp s0 hex herr2]
      have h4 := counts_addExisting σ C st t d stp s0 hex hinv
      refine ⟨h4.1, h4.2.1, h4.2.2.1, ?_⟩
      intro _
      obtain ⟨s2, hs2, hnum⟩ := h4.2.2.2
      exact ⟨s2, hs2, hnum⟩
  | none =>
    have hfe := addFirstSeen_fresh σ C st t d stp hex
    have hinv1 : ∀ tg s,
        (if tg = t then some initTagData else st.tags tg) = some s →
          s.indexs.length ≤ s.num := by
      intro tg s hs
      by_cases htg : tg = t
      · rw [if_pos htg] at hs
        injection hs with hs
        subst hs
        simp [initTagData]
      · rw [if_neg htg] at hs
        exact hinv tg s hs
    by_cases herr : C.isChartError (C.addTag st.chart t (stampFirst t stp d)) t = true
    · have heq := add_chartError σ C st t d stp (by rw [hfe]; exact herr)
      rw [hfe] at heq
      rw [heq]
      refine ⟨?_, ?_, fun h => by simp at h, fun h => absurd rfl h.1⟩
      · intro tg s hs
        dsimp only at hs
        exact hinv1 tg s hs
      · intro tg s s2 h1 h2 hlt
        dsimp only at h2
        by_cases htg : tg = t
        · subst htg
          rw [hex] at h1
          cases h1
        · rw [if_neg htg] at h2
          rw [h1] at h2
          injection h2 with h2
          subst h2
          exact hlt
    · have herr2 : C.isChartError (C.addTag st.chart t (stampFirst t stp d)) t = false := by
        simpa using herr
      rw [add_fresh_noErr σ C st t d stp hex herr2]
      have hex1 : ({ st with
          tags := fun t2 => if t2 = t then some initTagData else st.tags t2,
          chart := C.addTag st.chart t (stampFirst t stp d) } : ExpState σ).tags t
            = some initTagData := by simp
      have hinv1b : ∀ tg s, ({ st with
          tags := fun t2 => if t2 = t then some initTagData else st.tags t2,
          chart := C.addTag st.chart t (stampFirst t stp d) } : ExpState σ).tags tg = some s →
            s.indexs.length ≤ s.num := by
        intro tg s hs
        dsimp only at hs
        exact hinv1 tg s hs
      have h4 := counts_addExisting σ C _ t (stampFirst t stp d) stp initTagData hex1 hinv1b
      refine ⟨h4.1, ?_, h4.2.2.1, ?_⟩
      · intro tg s s2 h1 h2 hlt
        by_cases htg : tg = t
        · subst htg
          rw [hex] at h1
          cases h1
        · refine h4.2.1 tg s s2 ?_ h2 hlt
          dsimp only
          rw [if_neg htg]
          exact h1
      · intro _
        obtain ⟨s2, hs2, hnum⟩ := h4.2.2.2
        exact ⟨s2, hs2, hnum⟩

theorem claim_C10_witness :
    ∃ s2, (add Unit idChart (initState Unit ()) wTag
        (PyData.scalar (Scalar.float 5)) (some 1)).1.tags wTag = some s2 ∧
      s2.num = (match (initState Unit ()).tags wTag with
        | some s1 => s1.num
        | none => 0) + 1 :=
  (claim_C10 Unit idChart (initState Unit ()) wTag (PyData.scalar (Scalar.float 5)) (some 1)
    (fun tg s h => by simp [initState] at h)).2.2.2 ⟨by decide, by decide⟩
